import Mathlib

/-!
Verification of the credential-cache subsystem (`src/cache.ts`) and the
token-exchange request builder (`src/api.ts`) of `auth0-spa-js`.

Strings are Lean `String`s; JavaScript's `split` is embedded as leftmost,
non-overlapping splitting over the underlying character lists.  Machine time
(`Math.floor(Date.now() / 1000)`) is passed explicitly as an `Int` argument
`nowSeconds`.  JavaScript objects used as string-keyed maps (both
`window.localStorage` and the in-memory `cache` object) are embedded as
association lists in insertion order, matching JS enumeration order of
string keys.
-/

/-- Extend the first piece of a split result with one more leading
character (the still-unfinished piece before the next delimiter). -/
def consHead (c : Char) : List (List Char) → List (List Char)
  | [] => [[c]]
  | p :: ps => (c :: p) :: ps

/-- Leftmost, non-overlapping split of a character list on the two-character
delimiter "::", exactly as JavaScript's `key.split('::')` scans a string. -/
def splitCols : List Char → List (List Char)
  | [] => [[]]
  | [c] => [[c]]
  | c1 :: c2 :: rest =>
    if c1 = ':' ∧ c2 = ':' then [] :: splitCols rest
    else consHead c1 (splitCols (c2 :: rest))

/-- Leftmost split of a character list on a single space, exactly as
JavaScript's `scope.split(' ')` scans a string (an empty string yields
`[""]`, consecutive spaces yield empty tokens). -/
def splitSpace : List Char → List (List Char)
  | [] => [[]]
  | c :: rest =>
    if c = ' ' then [] :: splitSpace rest
    else consHead c (splitSpace rest)

/-- Whether a character list contains "::" as a substring (a component
containing the delimiter cannot round-trip through `toKey`/`fromKey`). -/
def hasDD : List Char → Bool
  | c1 :: c2 :: rest => if c1 = ':' ∧ c2 = ':' then true else hasDD (c2 :: rest)
  | _ => false

/-- Whether a character list ends with ':' (a component doing so can merge
with the following delimiter into a longer colon run). -/
def endsColon (l : List Char) : Bool :=
  match l.getLast? with
  | some ':' => true
  | _ => false

/-- JavaScript `s.split('::')` on a Lean `String`. -/
def jsSplitDD (s : String) : List String :=
  (splitCols s.data).map String.mk

/-- JavaScript `s.split(' ')` on a Lean `String`. -/
def jsSplitSpace (s : String) : List String :=
  (splitSpace s.data).map String.mk

/-- The namespace tag `keyPrefix = '@@auth0spajs@@'` of src/cache.ts. -/
def keyPrefix : String := "@@auth0spajs@@"

/-- `CacheKey` of src/cache.ts: client_id, scope, audience plus the namespace
tag (constructor default `keyPrefix`).  The TS field `prefix` is named
`prefix_` here because `prefix` is a reserved token in Lean. -/
structure CacheKey where
  client_id : String
  scope : String
  audience : String
  prefix_ : String := keyPrefix
deriving Repr, DecidableEq

/-- `CacheKey.toKey`: join prefix, client_id, audience, scope with `::`. -/
def CacheKey.toKey (k : CacheKey) : String :=
  k.prefix_ ++ "::" ++ k.client_id ++ "::" ++ k.audience ++ "::" ++ k.scope

/-- `CacheKey.fromKey`: `key.split('::')` destructured into the first four
positions.  A missing position is `undefined` in JS; it is embedded as the
empty string, which the spec itself describes ("a malformed key silently
yields partially empty fields") and which no consumer distinguishes from
`undefined` (each compares against non-empty requested components and
rejects an empty scope). -/
def CacheKey.fromKey (key : String) : CacheKey :=
  let parts := jsSplitDD key
  { prefix_ := parts.getD 0 ""
    client_id := parts.getD 1 ""
    audience := parts.getD 2 ""
    scope := parts.getD 3 "" }

/-- The scope test of `findExistingCacheKey` (src/cache.ts lines 149-158):
`currentScopes && scope.split(' ').reduce((acc, c) => acc && arr.includes(c), true)`.
The JS truthiness guard makes an empty stored scope string always fail. -/
def hasAllScopes (scope currentScopes : String) : Bool :=
  currentScopes != "" &&
    (jsSplitSpace scope).all (fun current => (jsSplitSpace currentScopes).contains current)

/-- The filter predicate of `findExistingCacheKey`: parse the stored key,
require the fixed namespace tag, exact client_id and audience, and the
scope test. -/
def keyMatches (cacheKey : CacheKey) (key : String) : Bool :=
  let current := CacheKey.fromKey key
  current.prefix_ == keyPrefix &&
    current.client_id == cacheKey.client_id &&
    current.audience == cacheKey.audience &&
    hasAllScopes cacheKey.scope current.scope

/-- `findExistingCacheKey` of src/cache.ts: the first stored key (in
enumeration order) passing `keyMatches`; `filter(...)[0]`, `undefined`
becoming `none`. -/
def findExistingCacheKey (cacheKey : CacheKey) (existingCacheKeys : List String) : Option String :=
  (existingCacheKeys.filter (keyMatches cacheKey)).head?

/-- Modelled from the spec, for comparison in claim C1: "select the first
key whose `prefix` exactly equals this subsystem's namespace tag, whose
`client_id` and `audience` exactly equal the requested key's, and whose
stored `scope` set (split on whitespace) is a superset of every token in
the requested key's scope set" — the spec's words state no requirement
that the stored scope string be non-empty. -/
def specKeyMatches (cacheKey : CacheKey) (key : String) : Bool :=
  let current := CacheKey.fromKey key
  current.prefix_ == keyPrefix &&
    current.client_id == cacheKey.client_id &&
    current.audience == cacheKey.audience &&
    (jsSplitSpace cacheKey.scope).all (fun t => (jsSplitSpace current.scope).contains t)

/-- Modelled from the spec, for comparison in claim C1: the first stored key
(in enumeration order) satisfying `specKeyMatches`. -/
def specFindExistingCacheKey (cacheKey : CacheKey) (existingCacheKeys : List String) : Option String :=
  (existingCacheKeys.filter (specKeyMatches cacheKey)).head?

/-- Lookup in a JS object used as a string-keyed map (`cache[key]`,
`localStorage.getItem(key)`). -/
def objGet {α : Type} (store : List (String × α)) (key : String) : Option α :=
  (store.find? (fun p => p.1 == key)).map (fun p => p.2)

/-- Write to a JS object used as a string-keyed map (`cache[key] = v`,
`localStorage.setItem(key, v)`): overwrite in place, or append a new key in
enumeration order. -/
def objSet {α : Type} (store : List (String × α)) (key : String) (v : α) : List (String × α) :=
  if store.any (fun p => p.1 == key) then
    store.map (fun p => if p.1 == key then (key, v) else p)
  else
    store ++ [(key, v)]

/-- Delete from a JS object used as a string-keyed map (`delete cache[key]`,
`localStorage.removeItem(key)`). -/
def objRemove {α : Type} (store : List (String × α)) (key : String) : List (String × α) :=
  store.filter (fun p => p.1 != key)

/-- `Object.keys` / the key enumeration of `localStorage`. -/
def objKeys {α : Type} (store : List (String × α)) : List String :=
  store.map (fun p => p.1)

/-- Modelled from the spec: `global.ts` (the `IdToken` claims type) is not in
the given sources; the cache reads only the expiry claim `exp` (epoch
seconds), produced by the external claims verifier. -/
structure IdToken where
  exp : Int
deriving Repr, DecidableEq

/-- Modelled from the spec: the derived user profile of `global.ts` is not in
the given sources and is opaque to the cache; a single field stands for it. -/
structure User where
  sub : String
deriving Repr, DecidableEq

/-- `DecodedToken` of src/cache.ts: parsed claims plus derived user. -/
structure DecodedToken where
  claims : IdToken
  user : User
deriving Repr, DecidableEq

/-- `CacheEntry` of src/cache.ts.  `refresh_token?: string` is an `Option`. -/
structure CacheEntry where
  id_token : String
  access_token : String
  expires_in : Int
  decodedToken : DecodedToken
  audience : String
  scope : String
  client_id : String
  refresh_token : Option String := none
deriving Repr, DecidableEq

/-- `Partial<CacheEntry>`: every field optional, as in the refresh-token
remnant `{ refresh_token: ... }` written back by `CacheManager.get`. -/
structure PartialCacheEntry where
  id_token : Option String := none
  access_token : Option String := none
  expires_in : Option Int := none
  decodedToken : Option DecodedToken := none
  audience : Option String := none
  scope : Option String := none
  client_id : Option String := none
  refresh_token : Option String := none
deriving Repr, DecidableEq

/-- The implicit widening of a full `CacheEntry` to `Partial<CacheEntry>`
when `wrapCacheEntry` stores `body: entry`. -/
def CacheEntry.toPartial (e : CacheEntry) : PartialCacheEntry :=
  { id_token := some e.id_token
    access_token := some e.access_token
    expires_in := some e.expires_in
    decodedToken := some e.decodedToken
    audience := some e.audience
    scope := some e.scope
    client_id := some e.client_id
    refresh_token := e.refresh_token }

/-- `WrappedCacheEntry` of src/cache.ts: the on-storage shape. -/
structure WrappedCacheEntry where
  body : PartialCacheEntry
  expiresAt : Int
deriving Repr, DecidableEq

/-- JS truthiness of a `string | undefined` value (`undefined` and the empty
string are falsy), as `if (wrappedEntry.body.refresh_token)` tests it. -/
def jsTruthyStr : Option String → Bool
  | none => false
  | some s => s != ""

/-- The `ICache` interface of src/cache.ts, embedded as pure state
transformers over a backend state `σ` holding `WrappedCacheEntry` values
(the shape `CacheManager` casts the backend's result to). -/
structure ICacheOps (σ : Type) where
  get : σ → String → Option WrappedCacheEntry
  set : σ → String → WrappedCacheEntry → σ
  remove : σ → String → σ

/-- `CacheManager.get` of src/cache.ts: fetch the wrapped entry under the
requested key; absent stays absent; an entry with
`expiresAt - expiryAdjustmentSeconds < nowSeconds` is expired — with a
truthy `refresh_token` the body is truncated to `{refresh_token}`, written
back under the requested key and returned, otherwise the requested key is
removed and the result is absent; an unexpired entry's body is returned
unchanged.  `nowSeconds` stands for `Math.floor(Date.now() / 1000)`.
The source's truncation is an in-place mutation of the fetched object
(`wrappedEntry.body = {refresh_token}`); it is embedded here as a pure
record update plus `set`, which is exact for a backend returning copies
(the durable one JSON-serializes) and exact for the returned value with
any backend; the in-memory backend returns the stored object by reference,
and the store write-through this aliasing causes is modelled by
`CacheManagerInMemory.get`. -/
def CacheManager.get {σ : Type} (cache : ICacheOps σ) (st : σ) (cacheKey : CacheKey)
    (nowSeconds : Int) (expiryAdjustmentSeconds : Int := 0) :
    Option PartialCacheEntry × σ :=
  let key := cacheKey.toKey
  match cache.get st key with
  | none => (none, st)
  | some wrappedEntry =>
    if wrappedEntry.expiresAt - expiryAdjustmentSeconds < nowSeconds then
      if jsTruthyStr wrappedEntry.body.refresh_token then
        let newBody : PartialCacheEntry := { refresh_token := wrappedEntry.body.refresh_token }
        (some newBody, cache.set st key { wrappedEntry with body := newBody })
      else
        (none, cache.remove st key)
    else
      (some wrappedEntry.body, st)

/-- `CacheManager.wrapCacheEntry` of src/cache.ts:
`expiresAt = min(nowSeconds + entry.expires_in, entry.decodedToken.claims.exp)`. -/
def CacheManager.wrapCacheEntry (nowSeconds : Int) (entry : CacheEntry) : WrappedCacheEntry :=
  let expiresInTime := nowSeconds + entry.expires_in
  let expirySeconds := min expiresInTime entry.decodedToken.claims.exp
  { body := entry.toPartial, expiresAt := expirySeconds }

/-- `CacheManager.set` of src/cache.ts: derive the cache key from the
entry's client_id/scope/audience (default prefix), wrap and store. -/
def CacheManager.set {σ : Type} (cache : ICacheOps σ) (st : σ) (entry : CacheEntry)
    (nowSeconds : Int) : σ :=
  let cacheKey : CacheKey :=
    { client_id := entry.client_id, scope := entry.scope, audience := entry.audience }
  let wrappedEntry := CacheManager.wrapCacheEntry nowSeconds entry
  cache.set st (cacheKey.toKey) wrappedEntry

/-- The in-memory backend's state: the enclosed `cache` object of
`InMemoryCache`, a JS object in insertion order. -/
abbrev MemStore : Type := List (String × WrappedCacheEntry)

/-- The key-selection step of `InMemoryCache.enclosedCache.get`:
`findExistingCacheKey(CacheKey.fromKey(key), Object.keys(cache))`. -/
def InMemoryCache.selectKey (cache : MemStore) (key : String) : Option String :=
  findExistingCacheKey (CacheKey.fromKey key) (objKeys cache)

/-- `InMemoryCache.enclosedCache.get` of src/cache.ts: scope-superset scan
over the object's keys, then the raw stored value (a falsy miss resolves to
`null`); the commented-out expiry block in the source is dead code.
In JavaScript the stored object is returned BY REFERENCE; this value-level
embedding describes the returned contents, and `CacheManagerInMemory.get`
below accounts for the caller's later in-place mutation writing through to
the store. -/
def InMemoryCache.get (cache : MemStore) (key : String) : Option WrappedCacheEntry :=
  match InMemoryCache.selectKey cache key with
  | none => none
  | some existingCacheKey => objGet cache existingCacheKey

/-- The `ICache` record returned by `InMemoryCache`: `set` assigns,
`remove` deletes, `get` scans. -/
def inMemoryOps : ICacheOps MemStore :=
  { get := InMemoryCache.get
    set := objSet
    remove := objRemove }

/-- The composition of `CacheManager.get` with the in-memory backend as
JavaScript actually executes it.  The backend's `get` resolves the stored
object by reference, so the expiry branch's in-place mutation
`wrappedEntry.body = { refresh_token: ... }` truncates the object still
stored under the matched physical key `k0`, and the following
`cache.set(key, wrappedEntry)` stores that same (now truncated) object
under the requested key as well: the post-call store holds the remnant
under `k0` AND under the requested key (a single record when they
coincide).  The pure `CacheManager.get` above, which treats the fetched
entry as a value, is faithful for the durable backend (whose JSON
round-trip copies) and for every returned result
(`managerInMemory_get_fst`); this definition captures the in-memory store
contents. -/
def CacheManagerInMemory.get (st : MemStore) (cacheKey : CacheKey)
    (nowSeconds : Int) (expiryAdjustmentSeconds : Int := 0) :
    Option PartialCacheEntry × MemStore :=
  let key := cacheKey.toKey
  match InMemoryCache.selectKey st key with
  | none => (none, st)
  | some k0 =>
    match objGet st k0 with
    | none => (none, st)
    | some wrappedEntry =>
      if wrappedEntry.expiresAt - expiryAdjustmentSeconds < nowSeconds then
        if jsTruthyStr wrappedEntry.body.refresh_token then
          let newBody : PartialCacheEntry := { refresh_token := wrappedEntry.body.refresh_token }
          let newEntry := { wrappedEntry with body := newBody }
          (some newBody, objSet (objSet st k0 newEntry) key newEntry)
        else
          (none, objRemove st key)
      else
        (some wrappedEntry.body, st)

/-- The durable backend's state: `window.localStorage`, an ordered list of
key/value pairs whose values are the JSON strings `setItem` stored. -/
abbrev LsStore : Type := List (String × String)

/-- JSON values, for the result of the external `JSON.parse`. -/
inductive Json where
  | null
  | bool (b : Bool)
  | num (n : Int)
  | str (s : String)
  | arr (elems : List Json)
  | obj (fields : List (String × Json))

/-- JS truthiness of a parsed JSON value, as `if (!payload) return` tests it. -/
def jsTruthyJson : Json → Bool
  | .null => false
  | .bool b => b
  | .num n => n != 0
  | .str s => s != ""
  | .arr _ => true
  | .obj _ => true

/-- The key-selection step of `LocalStorageCache.readJson`:
`findExistingCacheKey(cacheKey, Object.keys(window.localStorage))`. -/
def LocalStorageCache.selectKey (ls : LsStore) (cacheKey : CacheKey) : Option String :=
  findExistingCacheKey cacheKey (objKeys ls)

/-- `LocalStorageCache.readJson` of src/cache.ts.  `parse` stands for the
platform's `JSON.parse`, an external collaborator: `none` is a parse throw,
embedded as `Except.error ()` (the promise rejection the caller sees).
A missing key or falsy payload is `Except.ok none` (absent). -/
def LocalStorageCache.readJson (parse : String → Option Json) (ls : LsStore)
    (cacheKey : CacheKey) : Except Unit (Option Json) :=
  match LocalStorageCache.selectKey ls cacheKey with
  | none => .ok none
  | some existingCacheKey =>
    match objGet ls existingCacheKey with
    | none => .ok none
    | some json =>
      if json == "" then .ok none
      else
        match parse json with
        | none => .error ()
        | some payload => if jsTruthyJson payload then .ok (some payload) else .ok none

/-- `LocalStorageCache.get` of src/cache.ts: parse the requested key, run
`readJson`; the storage itself is untouched (returned unchanged). -/
def LocalStorageCache.get (parse : String → Option Json) (ls : LsStore) (key : String) :
    Except Unit (Option Json) × LsStore :=
  (LocalStorageCache.readJson parse ls (CacheKey.fromKey key), ls)

/-- JavaScript `key.startsWith(keyPrefix)` over the character lists. -/
def jsStartsWith (s pre : String) : Bool :=
  pre.data.isPrefixOf s.data

/-- `localStorage.key(i)`: the i-th stored key, `null` out of range. -/
def lsKeyAt (ls : LsStore) (i : Nat) : Option String :=
  (ls[i]?).map (fun p => p.1)

/-- The loop of `LocalStorageCache.clear`
(`for (var i = localStorage.length - 1; i >= 0; i--)`): visit indices from
high to low, removing each key that starts with `keyPrefix`. -/
def LocalStorageCache.clearLoop (ls : LsStore) : Nat → LsStore
  | 0 => ls
  | i + 1 =>
    match lsKeyAt ls i with
    | some k =>
      if jsStartsWith k keyPrefix then LocalStorageCache.clearLoop (objRemove ls k) i
      else LocalStorageCache.clearLoop ls i
    | none => LocalStorageCache.clearLoop ls i

/-- `LocalStorageCache.clear` of src/cache.ts: run the downward loop from
`localStorage.length`. -/
def LocalStorageCache.clear (ls : LsStore) : LsStore :=
  LocalStorageCache.clearLoop ls ls.length

/-- Modelled from the spec: the SDK client metadata (`Auth0Client` of
`global.ts`, not in the given sources) identifying the calling SDK and
version. -/
structure Auth0Client where
  name : String
  version : String
deriving Repr, DecidableEq

/-- Modelled from the spec: `DEFAULT_TOKEN_PATH` of `constants.ts` (not in
the given sources), the fixed default token-endpoint path; the spec fixes
only that it is a constant. -/
def DEFAULT_TOKEN_PATH : String := "oauth/token"

/-- Modelled from the spec: `DEFAULT_AUTH0_CLIENT` of `constants.ts` (not in
the given sources), the default SDK self-identification. -/
def DEFAULT_AUTH0_CLIENT : Auth0Client :=
  { name := "auth0-spa-js", version := "1.0.0" }

/-- Characters a JSON string literal escapes (quote and backslash; control
characters do not occur in the inputs considered here). -/
def jsonEscapeChar : Char → List Char
  | '"' => ['\\', '"']
  | '\\' => ['\\', '\\']
  | c => [c]

/-- A JSON string literal. -/
def jsonQuote (s : String) : String :=
  "\"" ++ String.mk ((s.data.map jsonEscapeChar).flatten) ++ "\""

/-- Modelled from the spec: `JSON.stringify` of the grant-parameter object
(string-valued fields, insertion order). -/
def jsonEncodeParams (ps : List (String × String)) : String :=
  "\x7b" ++ String.intercalate "," (ps.map (fun p => jsonQuote p.1 ++ ":" ++ jsonQuote p.2)) ++ "\x7d"

/-- Modelled from the spec: `createQueryParams` of `utils.ts` (not in the
given sources), the URL-form-encoding of the grant parameters; the spec
fixes only that it is the form encoding of those parameters. -/
def createQueryParams (ps : List (String × String)) : String :=
  String.intercalate "&" (ps.map (fun p => p.1 ++ "=" ++ p.2))

/-- `JSON.stringify` of the client metadata object. -/
def jsonEncodeAuth0Client (c : Auth0Client) : String :=
  "\x7b" ++ jsonQuote "name" ++ ":" ++ jsonQuote c.name ++ "," ++
    jsonQuote "version" ++ ":" ++ jsonQuote c.version ++ "\x7d"

/-- The base64 alphabet. -/
def base64Alphabet : List Char :=
  "ABCDEFGHIJKLMNOPQRSTUVWXYZabcdefghijklmnopqrstuvwxyz0123456789+/".data

/-- The base64 digit for a 6-bit value. -/
def base64Char (n : Nat) : Char :=
  base64Alphabet.getD n 'A'

/-- Base64 of a byte list, '='-padded. -/
def base64Encode : List Nat → List Char
  | b1 :: b2 :: b3 :: rest =>
    base64Char (b1 / 4) :: base64Char ((b1 % 4) * 16 + b2 / 16) ::
      base64Char ((b2 % 16) * 4 + b3 / 64) :: base64Char (b3 % 64) :: base64Encode rest
  | [b1, b2] =>
    [base64Char (b1 / 4), base64Char ((b1 % 4) * 16 + b2 / 16), base64Char ((b2 % 16) * 4), '=']
  | [b1] => [base64Char (b1 / 4), base64Char ((b1 % 4) * 16), '=', '=']
  | [] => []

/-- Modelled from the spec: the platform's `btoa` (an external collaborator),
base64 over the string's code units. -/
def btoa (s : String) : String :=
  String.mk (base64Encode (s.data.map (fun c => c.toNat % 256)))

/-- `TokenEndpointOptions` of src/api.ts (declared in `global.ts`, not in the
given sources; fields as destructured by `oauthToken`).  `options` holds the
rest parameters — the grant-specific fields — as ordered string pairs. -/
structure TokenEndpointOptions where
  baseUrl : String
  timeout : Option Int := none
  audience : Option String := none
  scope : String := ""
  auth0Client : Option Auth0Client := none
  useFormData : Bool := false
  disableAuth0Client : Bool := false
  tokenPath : Option String := none
  options : List (String × String) := []
deriving Repr, DecidableEq

/-- The request description `oauthToken` hands to the external transport
`getJSON`: target URL, timeout, audience, scope, and the fetch options
(method, body, headers), plus the `useFormData` flag passed through. -/
structure TokenRequest where
  url : String
  timeout : Option Int
  audience : String
  scope : String
  method : String
  body : String
  headers : List (String × String)
  useFormData : Bool
deriving Repr, DecidableEq

/-- JS `v || d` for a `string | undefined` value. -/
def jsOrDefaultStr (v : Option String) (d : String) : String :=
  match v with
  | some s => if s == "" then d else s
  | none => d

/-- `oauthToken` of src/api.ts: build the token-exchange request
description.  Body and Content-Type follow `useFormData`; the
`Auth0-Client` header (base64 JSON of the client metadata, with the
default metadata when none is given) is attached unless
`disableAuth0Client` is set; the network call itself is the external
collaborator `getJSON`. -/
def oauthToken (o : TokenEndpointOptions) : TokenRequest :=
  let tokenPath := o.tokenPath.getD DEFAULT_TOKEN_PATH
  let body := if o.useFormData then createQueryParams o.options else jsonEncodeParams o.options
  let headers0 : List (String × String) :=
    [("Content-Type",
      if o.useFormData then "application/x-www-form-urlencoded" else "application/json")]
  let headers :=
    if o.disableAuth0Client then headers0
    else headers0 ++
      [("Auth0-Client", btoa (jsonEncodeAuth0Client (o.auth0Client.getD DEFAULT_AUTH0_CLIENT)))]
  { url := o.baseUrl ++ "/" ++ tokenPath
    timeout := o.timeout
    audience := jsOrDefaultStr o.audience "default"
    scope := o.scope
    method := "POST"
    body := body
    headers := headers
    useFormData := o.useFormData }

/-! Concrete fixtures used by counterexamples and witnesses. -/

/-- A wrapped-entry body holding an access token and a refresh token. -/
def bodyR : PartialCacheEntry :=
  { access_token := some "at", refresh_token := some "rt" }

/-- A wrapped entry with deadline 10 and a refresh token. -/
def wR : WrappedCacheEntry := { body := bodyR, expiresAt := 10 }

/-- A wrapped entry with deadline 10 and no refresh token. -/
def wN : WrappedCacheEntry :=
  { body := { access_token := some "at" }, expiresAt := 10 }

/-- A requested cache key for client "c", audience "a", scope "read". -/
def ckR : CacheKey := { client_id := "c", scope := "read", audience := "a" }

/-- An in-memory store holding `wR` under the key of `ckR` itself. -/
def stR : MemStore := [(ckR.toKey, wR)]

/-- The physical key of a stored entry for the broader scope "read write". -/
def kP : String := "@@auth0spajs@@::c::a::read write"

/-- An in-memory store holding the refresh-token entry only under the
broader-scope key `kP`, not under `ckR.toKey`. -/
def stP : MemStore := [(kP, wR)]

/-- As `stP` but with the refresh-token-free entry `wN`. -/
def stPN : MemStore := [(kP, wN)]

/-- Boolean regrouping used to align `keyMatches` with the spec's order of
conditions. -/
theorem bool_regroup (x n s : Bool) : (x && (n && s)) = ((x && s) && n) := by
  cases x <;> cases n <;> cases s <;> rfl

/-- The implementation's filter predicate is the spec's predicate plus the
extra requirement that the stored scope string be non-empty. -/
theorem keyMatches_eq_spec (cacheKey : CacheKey) (key : String) :
    keyMatches cacheKey key =
      (specKeyMatches cacheKey key && ((CacheKey.fromKey key).scope != "")) := by
  simp only [keyMatches, specKeyMatches, hasAllScopes]
  exact bool_regroup _ _ _

/-- C1 (amended): the backend lookup selects the first stored key, in
enumeration order, whose prefix is the namespace tag, whose client_id and
audience equal the requested key's, whose stored scope string is non-empty,
and whose stored scope token set contains every requested scope token;
moreover a stored scope "a b c" serves the subset queries "b c" and "a" but
not "a b c d". -/
theorem claims_C1 :
    (∀ (cacheKey : CacheKey) (existingCacheKeys : List String),
      findExistingCacheKey cacheKey existingCacheKeys =
        (existingCacheKeys.filter (fun key =>
          specKeyMatches cacheKey key && ((CacheKey.fromKey key).scope != ""))).head?) ∧
    hasAllScopes "b c" "a b c" = true ∧
    hasAllScopes "a" "a b c" = true ∧
    hasAllScopes "a b c d" "a b c" = false := by
  refine ⟨fun cacheKey existingCacheKeys => ?_, by decide, by decide, by decide⟩
  unfold findExistingCacheKey
  congr 1
  exact List.filter_congr (fun key _ => keyMatches_eq_spec cacheKey key)

/-- C1 (counterexample): for the stored key "@@auth0spajs@@::c::a::" (empty
scope component) and a request with empty scope, the spec's selection
predicate holds of the stored key — its token set, split on whitespace, is
a superset of every requested token — yet the implementation selects
nothing, because of its extra non-empty-scope guard. -/
theorem claims_C1_counterexample :
    specFindExistingCacheKey { client_id := "c", scope := "", audience := "a" }
        ["@@auth0spajs@@::c::a::"] = some "@@auth0spajs@@::c::a::" ∧
    findExistingCacheKey { client_id := "c", scope := "", audience := "a" }
        ["@@auth0spajs@@::c::a::"] = none := by
  decide

/-- C10: a stored key whose scope component is empty is never selected by
the scope-superset lookup, whatever the requested key and whatever the
other stored keys. -/
theorem claims_C10 (cacheKey : CacheKey) (key : String)
    (hscope : (CacheKey.fromKey key).scope = "") (keys : List String) :
    findExistingCacheKey cacheKey keys ≠ some key := by
  intro h
  unfold findExistingCacheKey at h
  have hmem : key ∈ keys.filter (keyMatches cacheKey) := by
    cases hl : keys.filter (keyMatches cacheKey) with
    | nil => rw [hl] at h; exact absurd h (by simp)
    | cons a t =>
      rw [hl] at h
      simp only [List.head?] at h
      injection h with h
      rw [← h]
      exact List.mem_cons_self a t
  have hk : keyMatches cacheKey key = true := (List.mem_filter.mp hmem).2
  rw [keyMatches_eq_spec, hscope] at hk
  simp at hk

/-- C10 (witness): the concrete empty-scope stored key is not selected. -/
theorem claims_C10_witness :
    findExistingCacheKey { client_id := "c", scope := "", audience := "a" }
        ["@@auth0spajs@@::c::a::"] ≠ some "@@auth0spajs@@::c::a::" :=
  claims_C10 { client_id := "c", scope := "", audience := "a" }
    "@@auth0spajs@@::c::a::" (by decide) ["@@auth0spajs@@::c::a::"]

/-- C9: the durable and the ephemeral backend run the same key-selection
algorithm — on identical stored key lists they select the same physical key
(or both none); both selection steps are the shared `findExistingCacheKey`. -/
theorem claims_C9 (ls : LsStore) (mem : MemStore) (key : String)
    (hkeys : objKeys ls = objKeys mem) :
    LocalStorageCache.selectKey ls (CacheKey.fromKey key) =
      InMemoryCache.selectKey mem key := by
  unfold LocalStorageCache.selectKey InMemoryCache.selectKey
  rw [hkeys]

/-- C9 (witness): the two variants agree on a concrete store holding one
broader-scope entry. -/
theorem claims_C9_witness :
    LocalStorageCache.selectKey [(kP, "raw")] (CacheKey.fromKey ckR.toKey) =
      InMemoryCache.selectKey stP ckR.toKey :=
  claims_C9 [(kP, "raw")] stP ckR.toKey (by decide)

/-- Looking a key up in a non-empty JS-object map checks the head first. -/
theorem objGet_cons {α : Type} (a : String × α) (t : List (String × α)) (k : String) :
    objGet (a :: t) k = if a.1 == k then some a.2 else objGet t k := by
  unfold objGet
  rw [List.find?_cons]
  cases h : (a.1 == k) <;> simp

/-- Overwriting-in-place leaves every other key's value unchanged. -/
theorem objGet_map_ne {α : Type} (st : List (String × α)) (k : String) (v : α)
    (k' : String) (h : k' ≠ k) :
    objGet (st.map (fun p => if p.1 == k then (k, v) else p)) k' = objGet st k' := by
  induction st with
  | nil => rfl
  | cons p t ih =>
    rw [List.map_cons]
    cases hp : (p.1 == k) with
    | true =>
      simp only [if_true]
      rw [objGet_cons, objGet_cons]
      have h1 : (k == k') = false := beq_eq_false_iff_ne.mpr (Ne.symm h)
      have h2 : (p.1 == k') = false := by
        rw [eq_of_beq hp]
        exact h1
      rw [h1, h2]
      simpa using ih
    | false =>
      simp only [Bool.false_eq_true, if_false]
      rw [objGet_cons, objGet_cons]
      cases hk : (p.1 == k') with
      | true => rfl
      | false =>
        simp only [Bool.false_eq_true, if_false]
        exact ih

/-- Appending a fresh pair leaves every other key's value unchanged. -/
theorem objGet_append_single_ne {α : Type} (st : List (String × α)) (k : String) (v : α)
    (k' : String) (h : k' ≠ k) :
    objGet (st ++ [(k, v)]) k' = objGet st k' := by
  induction st with
  | nil =>
    show objGet [(k, v)] k' = none
    rw [objGet_cons]
    simp [beq_eq_false_iff_ne.mpr (Ne.symm h), objGet]
  | cons p t ih =>
    rw [List.cons_append, objGet_cons, objGet_cons]
    cases hk : (p.1 == k') with
    | true => rfl
    | false =>
      simp only [Bool.false_eq_true, if_false]
      exact ih

/-- In-place overwrite: when some pair carries the key, the mapped list
yields the new value at that key. -/
theorem objGet_map_replace_self {α : Type} (st : List (String × α)) (k : String) (v : α)
    (ha : (st.any (fun p => p.1 == k)) = true) :
    objGet (st.map (fun p => if p.1 == k then (k, v) else p)) k = some v := by
  induction st with
  | nil => simp at ha
  | cons p t ih =>
    rw [List.map_cons]
    cases hp : (p.1 == k) with
    | true =>
      simp only [if_true]
      rw [objGet_cons]
      simp
    | false =>
      simp only [Bool.false_eq_true, if_false]
      rw [objGet_cons, hp]
      simp only [Bool.false_eq_true, if_false]
      refine ih ?_
      rw [List.any_cons] at ha
      simpa [hp] using ha

/-- After `objSet st k v`, looking up `k` yields `v`. -/
theorem objGet_objSet_self {α : Type} (st : List (String × α)) (k : String) (v : α) :
    objGet (objSet st k v) k = some v := by
  unfold objSet
  by_cases ha : (st.any (fun p => p.1 == k)) = true
  · rw [if_pos ha]
    exact objGet_map_replace_self st k v ha
  · rw [if_neg ha]
    induction st with
    | nil =>
      show objGet [(k, v)] k = some v
      rw [objGet_cons]
      simp
    | cons p t ih =>
      rw [List.cons_append, objGet_cons]
      rw [List.any_cons] at ha
      have hp : (p.1 == k) = false := by
        cases hpk : (p.1 == k) with
        | false => rfl
        | true => exact absurd (by rw [hpk]; simp) ha
      rw [hp]
      simp only [Bool.false_eq_true, if_false]
      exact ih (by simp [hp] at ha ⊢; exact ha)

/-- After `objSet st k v`, every other key's value is unchanged. -/
theorem objGet_objSet_ne {α : Type} (st : List (String × α)) (k : String) (v : α)
    (k' : String) (h : k' ≠ k) :
    objGet (objSet st k v) k' = objGet st k' := by
  unfold objSet
  by_cases ha : (st.any (fun p => p.1 == k)) = true
  · rw [if_pos ha]
    exact objGet_map_ne st k v k' h
  · rw [if_neg ha]
    exact objGet_append_single_ne st k v k' h

/-- `objRemove` deletes exactly the removed key. -/
theorem objGet_objRemove {α : Type} (st : List (String × α)) (k k' : String) :
    objGet (objRemove st k) k' = if k' = k then none else objGet st k' := by
  induction st with
  | nil =>
    show objGet ([] : List (String × α)) k' = if k' = k then none else none
    by_cases h : k' = k
    · rw [if_pos h]; rfl
    · rw [if_neg h]; rfl
  | cons p t ih =>
    unfold objRemove at ih ⊢
    rw [List.filter_cons]
    by_cases hp : p.1 = k
    · have hbne : (p.1 != k) = false := by simp [hp]
      rw [hbne]
      simp only [Bool.false_eq_true, if_false]
      rw [ih]
      by_cases hk : k' = k
      · rw [if_pos hk, if_pos hk]
      · rw [if_neg hk, if_neg hk, objGet_cons]
        have hne : (p.1 == k') = false := by
          rw [hp]
          exact beq_eq_false_iff_ne.mpr (fun e => hk e.symm)
        rw [hne]
        simp
    · have hbne : (p.1 != k) = true := by simp [hp]
      rw [hbne]
      simp only [if_true]
      rw [objGet_cons, objGet_cons, ih]
      cases hpk : (p.1 == k') with
      | true =>
        have hk : ¬ k' = k := fun e => hp (by rw [← e]; exact eq_of_beq hpk)
        simp [if_neg hk]
      | false => simp

/-- C2 (amended): for every wrapped entry the backend lookup returns, and
every adjustment `a`, `CacheManager.get` called at or before
`expiresAt - a` returns the full stored body unchanged; called strictly
after `expiresAt - a` it returns exactly `{refresh_token}` when the stored
body carries a (non-empty) refresh_token, and absent otherwise. -/
theorem claims_C2 {σ : Type} (cache : ICacheOps σ) (st : σ) (cacheKey : CacheKey)
    (w : WrappedCacheEntry) (nowSeconds a : Int)
    (hget : cache.get st cacheKey.toKey = some w) :
    (nowSeconds ≤ w.expiresAt - a →
      (CacheManager.get cache st cacheKey nowSeconds a).1 = some w.body) ∧
    (w.expiresAt - a < nowSeconds →
      (CacheManager.get cache st cacheKey nowSeconds a).1 =
        if jsTruthyStr w.body.refresh_token then
          some { refresh_token := w.body.refresh_token }
        else none) := by
  constructor
  · intro h
    simp only [CacheManager.get, hget]
    rw [if_neg (not_lt.mpr h)]
  · intro h
    simp only [CacheManager.get, hget]
    rw [if_pos h]
    by_cases ht : jsTruthyStr w.body.refresh_token = true
    · rw [if_pos ht, if_pos ht]
    · rw [if_neg ht, if_neg ht]

/-- C2 (counterexample): at `nowSeconds` exactly equal to `expiresAt`
(adjustment 0) — a time "at or after expiresAt" — the implementation still
returns the full stored body, refresh token and access token included, not
the bare `{refresh_token}` the claim requires at such a time: the expiry
comparison `expiresAt - a < now` is strict. -/
theorem claims_C2_counterexample :
    (CacheManager.get inMemoryOps stR ckR 10 0).1 = some bodyR ∧
    bodyR ≠ { refresh_token := some "rt" } := by
  constructor
  · decide
  · decide

/-- C2 (witness): strictly after the deadline the refresh-token remnant is
returned. -/
theorem claims_C2_witness :
    (CacheManager.get inMemoryOps stR ckR 100 0).1 =
      (if jsTruthyStr wR.body.refresh_token then
        some { refresh_token := wR.body.refresh_token }
      else none) :=
  (claims_C2 inMemoryOps stR ckR wR 100 0 (by decide)).2 (by decide)

/-- Writing the same value under the same key twice is one write. -/
theorem objSet_objSet_same {α : Type} (st : List (String × α)) (k : String) (v : α) :
    objSet (objSet st k v) k v = objSet st k v := by
  unfold objSet
  by_cases ha : (st.any (fun p => p.1 == k)) = true
  · rw [if_pos ha]
    have ha2 : ((st.map (fun p => if p.1 == k then (k, v) else p)).any
        (fun p => p.1 == k)) = true := by
      rw [List.any_map]
      have hsame : st.any ((fun p => p.1 == k) ∘ (fun p => if p.1 == k then (k, v) else p)) =
          st.any (fun p => p.1 == k) := by
        clear ha
        induction st with
        | nil => rfl
        | cons p t ih =>
          rw [List.any_cons, List.any_cons, ih]
          cases hx : (p.1 == k) with
          | true => simp [Function.comp, hx]
          | false => simp [Function.comp, hx]
      rw [hsame]
      exact ha
    rw [if_pos ha2, List.map_map]
    apply List.map_congr_left
    intro x _
    cases hx : (x.1 == k) with
    | true => simp [Function.comp, hx]
    | false => simp [Function.comp, hx]
  · rw [if_neg ha]
    have ha2 : ((st ++ [(k, v)]).any (fun p => p.1 == k)) = true := by
      rw [List.any_append]
      simp
    rw [if_pos ha2, List.map_append]
    have hall : ∀ x ∈ st, (x.1 == k) = false := by
      intro x hx
      cases hxk : (x.1 == k) with
      | false => rfl
      | true => exact absurd (List.any_eq_true.mpr ⟨x, hx, hxk⟩) ha
    have hst : st.map (fun p => if p.1 == k then (k, v) else p) = st := by
      calc st.map (fun p => if p.1 == k then (k, v) else p) = st.map id := by
            apply List.map_congr_left
            intro x hx
            rw [hall x hx]
            simp
        _ = st := List.map_id st
    rw [hst]
    simp

/-- The aliasing-faithful in-memory composition and the pure
`CacheManager.get` agree on every returned value: the reference semantics
changes only what the store holds afterwards, never what the caller gets
back. -/
theorem managerInMemory_get_fst (st : MemStore) (cacheKey : CacheKey)
    (nowSeconds a : Int) :
    (CacheManagerInMemory.get st cacheKey nowSeconds a).1 =
      (CacheManager.get inMemoryOps st cacheKey nowSeconds a).1 := by
  cases hsel : InMemoryCache.selectKey st cacheKey.toKey with
  | none =>
    have hbg : inMemoryOps.get st cacheKey.toKey = none := by
      show InMemoryCache.get st cacheKey.toKey = none
      unfold InMemoryCache.get
      rw [hsel]
    simp only [CacheManagerInMemory.get, CacheManager.get, hsel, hbg]
  | some k0 =>
    cases hw : objGet st k0 with
    | none =>
      have hbg : inMemoryOps.get st cacheKey.toKey = none := by
        show InMemoryCache.get st cacheKey.toKey = none
        unfold InMemoryCache.get
        rw [hsel]
        exact hw
      simp only [CacheManagerInMemory.get, CacheManager.get, hsel, hw, hbg]
    | some w =>
      have hbg : inMemoryOps.get st cacheKey.toKey = some w := by
        show InMemoryCache.get st cacheKey.toKey = some w
        unfold InMemoryCache.get
        rw [hsel]
        exact hw
      simp only [CacheManagerInMemory.get, CacheManager.get, hsel, hw, hbg]
      by_cases hexp : w.expiresAt - a < nowSeconds
      · rw [if_pos hexp, if_pos hexp]
        by_cases ht : jsTruthyStr w.body.refresh_token = true
        · rw [if_pos ht, if_pos ht]
        · rw [if_neg ht, if_neg ht]
      · rw [if_neg hexp, if_neg hexp]

/-- C4 (amended): after a `get` over the in-memory backend observes an
expired entry matched under physical key `k0` (the backend returns the
stored object by reference): with a (truthy) refresh_token present, the
in-place truncation writes through to the record under `k0` and the
write-back stores the same truncated object under the requested key — the
store ends holding the `{refresh_token}` remnant under `k0` AND under the
requested key, one record (exactly the remnant) when the two coincide;
with no refresh_token, only the REQUESTED key is removed, so an entry
matched under a different physical key remains stored there in full. -/
theorem claims_C4 (st : MemStore) (cacheKey : CacheKey) (nowSeconds a : Int)
    (w : WrappedCacheEntry) (k0 : String)
    (hsel : InMemoryCache.selectKey st cacheKey.toKey = some k0)
    (hw : objGet st k0 = some w)
    (hexp : w.expiresAt - a < nowSeconds) :
    (jsTruthyStr w.body.refresh_token = true →
      (CacheManagerInMemory.get st cacheKey nowSeconds a).2 =
        objSet (objSet st k0 { w with body := { refresh_token := w.body.refresh_token } })
          cacheKey.toKey { w with body := { refresh_token := w.body.refresh_token } } ∧
      objGet ((CacheManagerInMemory.get st cacheKey nowSeconds a).2) k0 =
        some { w with body := { refresh_token := w.body.refresh_token } } ∧
      objGet ((CacheManagerInMemory.get st cacheKey nowSeconds a).2) cacheKey.toKey =
        some { w with body := { refresh_token := w.body.refresh_token } }) ∧
    (jsTruthyStr w.body.refresh_token = true → k0 = cacheKey.toKey →
      (CacheManagerInMemory.get st cacheKey nowSeconds a).2 =
        objSet st k0 { w with body := { refresh_token := w.body.refresh_token } }) ∧
    (jsTruthyStr w.body.refresh_token = false →
      (CacheManagerInMemory.get st cacheKey nowSeconds a).2 =
        objRemove st cacheKey.toKey ∧
      (k0 ≠ cacheKey.toKey →
        objGet ((CacheManagerInMemory.get st cacheKey nowSeconds a).2) k0 = some w)) := by
  refine ⟨?_, ?_, ?_⟩
  · intro ht
    simp only [CacheManagerInMemory.get, hsel, hw]
    rw [if_pos hexp, if_pos ht]
    refine ⟨rfl, ?_, ?_⟩
    · by_cases hkk : k0 = cacheKey.toKey
      · rw [hkk]
        exact objGet_objSet_self _ _ _
      · rw [objGet_objSet_ne _ _ _ _ hkk]
        exact objGet_objSet_self _ _ _
    · exact objGet_objSet_self _ _ _
  · intro ht hk0
    simp only [CacheManagerInMemory.get, hsel, hw]
    rw [if_pos hexp, if_pos ht]
    rw [← hk0]
    exact objSet_objSet_same st k0 _
  · intro ht
    simp only [CacheManagerInMemory.get, hsel, hw]
    rw [if_pos hexp, if_neg (by rw [ht]; exact Bool.false_ne_true)]
    refine ⟨rfl, ?_⟩
    intro hne
    rw [objGet_objRemove, if_neg hne]
    exact hw

/-- C4 (counterexample): the store `stP` holds the expired refresh-token
entry only under the broader-scope key `kP`; a `get` for `ckR` (scope
"read") matches it there and leaves the store with TWO records for that
logical entry — the truncated remnant under `kP` (the in-place mutation
writes through the reference) and the same remnant under the requested key
— not "exactly that remnant and nothing else"; and in the no-refresh-token
store `stPN`, the removal targets the requested key, so the key actually
holding the entry is NOT removed. -/
theorem claims_C4_counterexample :
    (CacheManagerInMemory.get stP ckR 100 0).2 =
      [(kP, { body := { refresh_token := some "rt" }, expiresAt := 10 }),
       (ckR.toKey, { body := { refresh_token := some "rt" }, expiresAt := 10 })] ∧
    ckR.toKey ≠ kP ∧
    objGet ((CacheManagerInMemory.get stPN ckR 100 0).2) kP = some wN := by
  refine ⟨by decide, by decide, by decide⟩

/-- C4 (witness): on the concrete superset-match store, the remnant ends
under both the matched physical key and the requested key. -/
theorem claims_C4_witness :
    (CacheManagerInMemory.get stP ckR 100 0).2 =
      objSet (objSet stP kP { wR with body := { refresh_token := wR.body.refresh_token } })
        ckR.toKey { wR with body := { refresh_token := wR.body.refresh_token } } ∧
    objGet ((CacheManagerInMemory.get stP ckR 100 0).2) kP =
      some { wR with body := { refresh_token := wR.body.refresh_token } } ∧
    objGet ((CacheManagerInMemory.get stP ckR 100 0).2) ckR.toKey =
      some { wR with body := { refresh_token := wR.body.refresh_token } } :=
  (claims_C4 stP ckR 100 0 wR kP (by decide) (by decide) (by decide)).1 (by decide)

/-- A concrete full cache entry used in witnesses. -/
def entry0 : CacheEntry :=
  { id_token := "idt", access_token := "at", expires_in := 86400,
    decodedToken := { claims := { exp := 60 }, user := { sub := "u" } },
    audience := "a", scope := "read write", client_id := "c",
    refresh_token := some "rt" }

/-- A successful in-memory backend read returns a value physically stored
somewhere in the store. -/
theorem inMemoryGet_exists (st : MemStore) (key : String) (w : WrappedCacheEntry)
    (h : InMemoryCache.get st key = some w) : ∃ k0, objGet st k0 = some w := by
  unfold InMemoryCache.get at h
  cases hsel : InMemoryCache.selectKey st key with
  | none =>
    rw [hsel] at h
    exact Option.noConfusion h
  | some k0 =>
    rw [hsel] at h
    exact ⟨k0, h⟩

/-- C3: `CacheManager.set` stores, under the key derived from the entry's
client_id/scope/audience with the default prefix, exactly
`{body: entry, expiresAt = min(now + expires_in, claims.exp)}`, overwriting
any prior value for that key and leaving every other key unchanged; and no
`CacheManager.get` ever recomputes an `expiresAt` — every wrapped entry in
the post-get store carries the `expiresAt` of some pre-get stored entry. -/
theorem claims_C3 (st : MemStore) (entry : CacheEntry) (nowSeconds : Int) :
    (objGet (CacheManager.set inMemoryOps st entry nowSeconds)
        (CacheKey.toKey
          { client_id := entry.client_id, scope := entry.scope, audience := entry.audience }) =
      some { body := entry.toPartial,
             expiresAt := min (nowSeconds + entry.expires_in) entry.decodedToken.claims.exp }) ∧
    (∀ k, k ≠ CacheKey.toKey
          { client_id := entry.client_id, scope := entry.scope, audience := entry.audience } →
      objGet (CacheManager.set inMemoryOps st entry nowSeconds) k = objGet st k) ∧
    (∀ (cacheKey : CacheKey) (tNow a : Int) (k : String) (w : WrappedCacheEntry),
      objGet ((CacheManager.get inMemoryOps st cacheKey tNow a).2) k = some w →
      ∃ k0 w0, objGet st k0 = some w0 ∧ w.expiresAt = w0.expiresAt) := by
  refine ⟨?_, ?_, ?_⟩
  · exact objGet_objSet_self st _ _
  · intro k hk
    exact objGet_objSet_ne st _ _ k hk
  · intro cacheKey tNow a k w hk
    cases hbg : inMemoryOps.get st cacheKey.toKey with
    | none =>
      simp only [CacheManager.get, hbg] at hk
      exact ⟨k, w, hk, rfl⟩
    | some w1 =>
      by_cases hexp : w1.expiresAt - a < tNow
      · by_cases ht : jsTruthyStr w1.body.refresh_token = true
        · simp only [CacheManager.get, hbg] at hk
          rw [if_pos hexp, if_pos ht] at hk
          have hk2 : objGet
              (objSet st cacheKey.toKey
                { w1 with body := { refresh_token := w1.body.refresh_token } }) k =
              some w := hk
          obtain ⟨k0, hk0⟩ := inMemoryGet_exists st cacheKey.toKey w1 hbg
          by_cases hkk : k = cacheKey.toKey
          · subst hkk
            rw [objGet_objSet_self] at hk2
            injection hk2 with he
            exact ⟨k0, w1, hk0, by rw [← he]⟩
          · rw [objGet_objSet_ne _ _ _ _ hkk] at hk2
            exact ⟨k, w, hk2, rfl⟩
        · simp only [CacheManager.get, hbg] at hk
          rw [if_pos hexp, if_neg ht] at hk
          have hk2 : objGet (objRemove st cacheKey.toKey) k = some w := hk
          rw [objGet_objRemove] at hk2
          by_cases hkk : k = cacheKey.toKey
          · rw [if_pos hkk] at hk2
            exact Option.noConfusion hk2
          · rw [if_neg hkk] at hk2
            exact ⟨k, w, hk2, rfl⟩
      · simp only [CacheManager.get, hbg] at hk
        rw [if_neg hexp] at hk
        exact ⟨k, w, hk, rfl⟩

/-- C3 (witness): writing `entry0` into the empty store leaves an unrelated
key unaffected. -/
theorem claims_C3_witness :
    objGet (CacheManager.set inMemoryOps [] entry0 5) "zzz" = objGet ([] : MemStore) "zzz" :=
  (claims_C3 [] entry0 5).2.1 "zzz" (by decide)

/-- C7: the token-exchange request builder deterministically produces method
POST, target `baseUrl ++ "/" ++ tokenPath` (default path when none given),
body form-encoded or JSON-encoded by `useFormData` with the matching
Content-Type header, and the `Auth0-Client` header — the base64-encoded
JSON of the client metadata — attached exactly when `disableAuth0Client`
is not set. -/
theorem claims_C7 (o : TokenEndpointOptions) :
    (oauthToken o).method = "POST" ∧
    (oauthToken o).url = o.baseUrl ++ "/" ++ o.tokenPath.getD DEFAULT_TOKEN_PATH ∧
    (oauthToken o).body =
      (if o.useFormData then createQueryParams o.options else jsonEncodeParams o.options) ∧
    (oauthToken o).headers.lookup "Content-Type" =
      some (if o.useFormData then "application/x-www-form-urlencoded"
            else "application/json") ∧
    (oauthToken o).headers.lookup "Auth0-Client" =
      (if o.disableAuth0Client then none
       else some (btoa (jsonEncodeAuth0Client (o.auth0Client.getD DEFAULT_AUTH0_CLIENT)))) := by
  refine ⟨rfl, rfl, rfl, ?_, ?_⟩
  · simp only [oauthToken]
    cases hd : o.disableAuth0Client <;> rfl
  · simp only [oauthToken]
    cases hd : o.disableAuth0Client <;> rfl

/-- `consHead` never produces the empty split result. -/
theorem consHead_ne_nil (c : Char) (l : List (List Char)) : consHead c l ≠ [] := by
  cases l <;> simp [consHead]

/-- A split result is never empty. -/
theorem splitCols_ne_nil (l : List Char) : splitCols l ≠ [] := by
  match l with
  | [] => simp [splitCols]
  | [c] => simp [splitCols]
  | c1 :: c2 :: rest =>
    simp only [splitCols]
    split
    · simp
    · exact consHead_ne_nil _ _

/-- Dropping the head character does not change whether a two-element-or-
longer list ends with ':'. -/
theorem endsColon_cons_cons (ch c2 : Char) (l : List Char) :
    endsColon (ch :: c2 :: l) = endsColon (c2 :: l) := by
  simp [endsColon, List.getLast?_cons_cons]

/-- A component with no "::" inside and no trailing ':' is split off whole
at the following delimiter. -/
theorem splitCols_append_delim (x rest : List Char)
    (hdd : hasDD x = false) (hec : endsColon x = false) :
    splitCols (x ++ ':' :: ':' :: rest) = x :: splitCols rest := by
  induction x with
  | nil =>
    simp only [List.nil_append]
    simp [splitCols]
  | cons ch x' ih =>
    cases x' with
    | nil =>
      have hch : ¬ ch = ':' := by
        intro h
        subst h
        simp [endsColon] at hec
      simp only [List.cons_append, List.nil_append]
      simp only [splitCols]
      rw [if_neg (fun hcon => hch hcon.1)]
      simp [consHead]
    | cons c2 x'' =>
      have hcond : ¬(ch = ':' ∧ c2 = ':') := by
        intro hcon
        obtain ⟨h1, h2⟩ := hcon
        subst h1
        subst h2
        simp [hasDD] at hdd
      have hdd' : hasDD (c2 :: x'') = false := by
        simp only [hasDD] at hdd
        rwa [if_neg hcond] at hdd
      have hec' : endsColon (c2 :: x'') = false := by
        rwa [endsColon_cons_cons] at hec
      simp only [List.cons_append]
      simp only [splitCols]
      rw [if_neg hcond]
      have hx : (x'' ++ ':' :: ':' :: rest) = (c2 :: x'' ++ ':' :: ':' :: rest).tail := rfl
      rw [show c2 :: (x'' ++ ':' :: ':' :: rest) = (c2 :: x'') ++ ':' :: ':' :: rest from rfl]
      rw [ih hdd' hec']
      rfl

/-- A character list with no "::" inside is a single split piece. -/
theorem splitCols_no_delim (s : List Char) (h : hasDD s = false) : splitCols s = [s] := by
  induction s with
  | nil => simp [splitCols]
  | cons c s' ih =>
    cases s' with
    | nil => simp [splitCols]
    | cons c2 s'' =>
      have hcond : ¬(c = ':' ∧ c2 = ':') := by
        intro hcon
        obtain ⟨h1, h2⟩ := hcon
        subst h1
        subst h2
        simp [hasDD] at h
      have h' : hasDD (c2 :: s'') = false := by
        simp only [hasDD] at h
        rwa [if_neg hcond] at h
      simp only [splitCols]
      rw [if_neg hcond]
      rw [ih h']
      rfl

/-- The character list of a serialized cache key: the four components joined
by the "::" delimiter. -/
theorem toKey_data (k : CacheKey) :
    (CacheKey.toKey k).data =
      k.prefix_.data ++ ':' :: ':' ::
        (k.client_id.data ++ ':' :: ':' ::
          (k.audience.data ++ ':' :: ':' :: k.scope.data)) := by
  simp [CacheKey.toKey, String.data_append]

/-- C5 (amended): `toKey(fromKey(k)) = k` for every key produced by `toKey`
from components none of which contains the delimiter "::", provided
additionally that none of prefix, client_id, audience ends with ':' (a
trailing ':' merges with the following delimiter into a longer colon run,
which the leftmost split re-brackets). -/
theorem claims_C5 (p c a s : String)
    (hp : hasDD p.data = false) (hpe : endsColon p.data = false)
    (hc : hasDD c.data = false) (hce : endsColon c.data = false)
    (ha : hasDD a.data = false) (hae : endsColon a.data = false)
    (hs : hasDD s.data = false) :
    CacheKey.toKey (CacheKey.fromKey
      (CacheKey.toKey { client_id := c, scope := s, audience := a, prefix_ := p })) =
      CacheKey.toKey { client_id := c, scope := s, audience := a, prefix_ := p } := by
  have hsplit : splitCols
      (CacheKey.toKey { client_id := c, scope := s, audience := a, prefix_ := p }).data =
      [p.data, c.data, a.data, s.data] := by
    rw [toKey_data]
    rw [splitCols_append_delim _ _ hp hpe]
    rw [splitCols_append_delim _ _ hc hce]
    rw [splitCols_append_delim _ _ ha hae]
    rw [splitCols_no_delim _ hs]
  unfold CacheKey.fromKey jsSplitDD
  rw [hsplit]
  rfl

/-- C5 (counterexample): with prefix "a:" and client_id ":b" — neither of
which contains "::" — the serialized key is "a::::b::c::d", whose colon run
of four re-brackets under the leftmost split into five pieces; the re-parse
keeps only the first four and the round-trip loses the scope: the claim
fails although no component contains the delimiter. -/
theorem claims_C5_counterexample :
    hasDD (String.data "a:") = false ∧ hasDD (String.data ":b") = false ∧
    hasDD (String.data "c") = false ∧ hasDD (String.data "d") = false ∧
    CacheKey.toKey (CacheKey.fromKey
      (CacheKey.toKey { client_id := ":b", scope := "d", audience := "c", prefix_ := "a:" })) ≠
      CacheKey.toKey { client_id := ":b", scope := "d", audience := "c", prefix_ := "a:" } := by
  refine ⟨by decide, by decide, by decide, by decide, by decide⟩

/-- C5 (witness): the round-trip holds at a well-formed concrete key. -/
theorem claims_C5_witness :
    CacheKey.toKey (CacheKey.fromKey
      (CacheKey.toKey { client_id := "cid", scope := "read write", audience := "aud",
                        prefix_ := keyPrefix })) =
      CacheKey.toKey { client_id := "cid", scope := "read write", audience := "aud",
                       prefix_ := keyPrefix } :=
  claims_C5 keyPrefix "cid" "aud" "read write" (by decide) (by decide) (by decide)
    (by decide) (by decide) (by decide) (by decide)

/-- The downward removal loop of `clear`, run over a decomposed store
`A ++ B` from index `A.length`, filters the prefixed keys out of `A` and
leaves `B` alone (keys assumed unique, as localStorage guarantees). -/
theorem clearLoop_append (A : LsStore) : ∀ (B : LsStore),
    (objKeys (A ++ B)).Nodup →
    LocalStorageCache.clearLoop (A ++ B) A.length =
      A.filter (fun p => !(jsStartsWith p.1 keyPrefix)) ++ B := by
  induction A using List.reverseRecOn with
  | nil =>
    intro B _
    simp [LocalStorageCache.clearLoop]
  | append_singleton A' e ih =>
    intro B hnd
    have hlen : (A' ++ [e]).length = A'.length + 1 := by simp
    rw [hlen]
    have hkey : lsKeyAt ((A' ++ [e]) ++ B) A'.length = some e.1 := by
      unfold lsKeyAt
      rw [List.append_assoc]
      rw [List.getElem?_append_right (Nat.le_refl A'.length)]
      simp
    simp only [LocalStorageCache.clearLoop, hkey]
    have h1 : ((A'.map (fun p => p.1) ++ [e.1]) ++ B.map (fun p => p.1)).Nodup := by
      simpa [objKeys, List.map_append] using hnd
    rw [List.nodup_append] at h1
    obtain ⟨h2, hBnd, h3⟩ := h1
    rw [List.nodup_append] at h2
    obtain ⟨hAnd, _, h4⟩ := h2
    have heA : e.1 ∉ A'.map (fun p => p.1) := fun hm => h4 hm (by simp)
    have heB : e.1 ∉ B.map (fun p => p.1) :=
      fun hm => h3 (List.mem_append_right _ (by simp)) hm
    by_cases hs : jsStartsWith e.1 keyPrefix = true
    · rw [if_pos hs]
      have hrem : objRemove ((A' ++ [e]) ++ B) e.1 = A' ++ B := by
        unfold objRemove
        rw [List.filter_append, List.filter_append]
        have fA : A'.filter (fun p => p.1 != e.1) = A' := by
          apply List.filter_eq_self.mpr
          intro p hp
          have hne : p.1 ≠ e.1 := fun hpe => heA (hpe ▸ List.mem_map_of_mem _ hp)
          simp [hne]
        have fe : [e].filter (fun p => p.1 != e.1) = ([] : LsStore) := by simp
        have fB : B.filter (fun p => p.1 != e.1) = B := by
          apply List.filter_eq_self.mpr
          intro p hp
          have hne : p.1 ≠ e.1 := fun hpe => heB (hpe ▸ List.mem_map_of_mem _ hp)
          simp [hne]
        rw [fA, fe, fB]
        simp
      rw [hrem]
      have hndAB : (objKeys (A' ++ B)).Nodup := by
        simp only [objKeys, List.map_append]
        rw [List.nodup_append]
        exact ⟨hAnd, hBnd, fun a haA haB => h3 (List.mem_append_left _ haA) haB⟩
      rw [ih B hndAB]
      rw [List.filter_append]
      simp [hs]
    · have hs' : jsStartsWith e.1 keyPrefix = false := by
        cases hx : jsStartsWith e.1 keyPrefix with
        | false => rfl
        | true => exact absurd hx hs
      rw [if_neg hs]
      rw [List.append_assoc]
      have hnd' : (objKeys (A' ++ ([e] ++ B))).Nodup := by
        rw [← List.append_assoc]
        exact hnd
      rw [ih ([e] ++ B) hnd']
      rw [List.filter_append]
      simp [hs']

/-- `LocalStorageCache.clear` is the removal of exactly the prefixed keys. -/
theorem clear_eq_filter (ls : LsStore) (hnd : (objKeys ls).Nodup) :
    LocalStorageCache.clear ls = ls.filter (fun p => !(jsStartsWith p.1 keyPrefix)) := by
  have h := clearLoop_append ls [] (by simpa using hnd)
  simpa [LocalStorageCache.clear] using h

/-- Filtering out the prefixed pairs affects exactly the prefixed keys. -/
theorem objGet_filter_startsWith (ls : LsStore) (k : String) :
    objGet (ls.filter (fun p => !(jsStartsWith p.1 keyPrefix))) k =
      if jsStartsWith k keyPrefix then none else objGet ls k := by
  induction ls with
  | nil => cases h : jsStartsWith k keyPrefix <;> simp [objGet]
  | cons p t ih =>
    rw [List.filter_cons]
    by_cases hp : jsStartsWith p.1 keyPrefix = true
    · simp only [hp, Bool.not_true, Bool.false_eq_true, if_false]
      rw [ih]
      by_cases hk : jsStartsWith k keyPrefix = true
      · rw [if_pos hk, if_pos hk]
      · rw [if_neg hk, if_neg hk, objGet_cons]
        have hne : (p.1 == k) = false := by
          cases hpk : (p.1 == k) with
          | false => rfl
          | true => exact absurd (eq_of_beq hpk ▸ hp) hk
        rw [hne]
        simp
    · have hp' : jsStartsWith p.1 keyPrefix = false := by
        cases hx : jsStartsWith p.1 keyPrefix with
        | false => rfl
        | true => exact absurd hx hp
      simp only [hp', Bool.not_false, if_true]
      rw [objGet_cons, objGet_cons, ih]
      by_cases hpk : (p.1 == k) = true
      · have hk : jsStartsWith k keyPrefix = false := by
          rw [← eq_of_beq hpk]
          exact hp'
        simp [hpk, hk]
      · have hpk' : (p.1 == k) = false := by
          cases hx : (p.1 == k) with
          | false => rfl
          | true => exact absurd hx hpk
        cases hk : jsStartsWith k keyPrefix <;> simp [hpk', hk]

/-- C6: on a localStorage whose keys are unique, `clear()` removes all and
only the keys carrying the subsystem's namespace tag; every key not
carrying it keeps its value unchanged. -/
theorem claims_C6 (ls : LsStore) (hnd : (objKeys ls).Nodup) (k : String) :
    objGet (LocalStorageCache.clear ls) k =
      if jsStartsWith k keyPrefix then none else objGet ls k := by
  rw [clear_eq_filter ls hnd]
  exact objGet_filter_startsWith ls k

/-- A localStorage holding one subsystem record next to unrelated data. -/
def lsC6 : LsStore := [("@@auth0spajs@@::c::a::read", "v1"), ("unrelated", "v2")]

/-- C6 (witness): clearing the concrete store leaves the unrelated key's
value in place. -/
theorem claims_C6_witness :
    objGet (LocalStorageCache.clear lsC6) "unrelated" =
      if jsStartsWith "unrelated" keyPrefix then none else objGet lsC6 "unrelated" :=
  claims_C6 lsC6 (by decide) "unrelated"
